import Mathlib

/-!
Verification of the streaming markup serializer (async writer) of the
quick-xml repository, `src/writer/async_tokio.rs`.

The embedding models the byte sink as a list of bytes (`Nat` values below
256 in practice, though nothing here depends on that), together with a
counter of `write_all` attempts.  A failure schedule `fails : Nat → Bool`
decides which `write_all` attempt fails; the error value returned by a
failing attempt is the index of that attempt, propagated unchanged, which
models the opaque I/O error of the sink.  Cooperative suspension has no
observable effect in this model: every `await` resumes exactly where it
left off with all state preserved, so the async functions are ordinary
state-passing functions here.

The `Indentation` tracker and the blocking writer live in parts of the
repository that are not available here (only the async module is), so they
are modelled from the specification, as marked in their doc comments.
-/

namespace QuickXml

/-- Bytes are modelled as lists of natural numbers (one per byte). -/
abbrev Bytes := List Nat

/-- The byte sink: the stream of bytes accepted so far, plus how many
`write_all` attempts have been made on it (successful or failing). -/
structure Sink where
  out : Bytes
  calls : Nat
deriving Repr, DecidableEq

/-- Modelled from the spec: the Indentation Tracker of §3/§4.4 (its source,
`src/writer.rs`, is not part of the excerpt).  Attributes: a nesting
`depth`, an indentation unit given as `indent_size` copies of the byte
`indent_char`, and the `should_line_break` flag.  `shrink` below depth 0 is
a caller contract violation per §3/§9; it is modelled with truncated `Nat`
subtraction and is only ever exercised above zero under that contract. -/
structure Indentation where
  should_line_break : Bool
  indent_char : Nat
  indent_size : Nat
  depth : Nat
deriving Repr, DecidableEq

/-- Modelled from the spec: a fresh tracker starts at depth 0 and, since no
line break is ever inserted before the very first event (§8), with
`should_line_break` false. -/
def Indentation.new (c sz : Nat) : Indentation :=
  { should_line_break := false, indent_char := c, indent_size := sz, depth := 0 }

/-- Modelled from the spec: `grow()` increments depth by one (§4.4). -/
def Indentation.grow (i : Indentation) : Indentation :=
  { i with depth := i.depth + 1 }

/-- Modelled from the spec: `shrink()` decrements depth by one (§4.4);
must not be called below zero. -/
def Indentation.shrink (i : Indentation) : Indentation :=
  { i with depth := i.depth - 1 }

/-- Modelled from the spec: `current()` returns the unit repeated `depth`
times (§4.4), i.e. `depth * indent_size` copies of the fill byte. -/
def Indentation.current (i : Indentation) : Bytes :=
  List.replicate (i.depth * i.indent_size) i.indent_char

/-- The writer: owns exactly one sink (field `writer` in the Rust struct)
and an optional indentation tracker (field `indent`). -/
structure Writer where
  writer : Sink
  indent : Option Indentation
deriving Repr, DecidableEq

/-- Modelled from the spec: `new(sink)` builds a compact-mode writer (§6). -/
def Writer.new : Writer := { writer := { out := [], calls := 0 }, indent := none }

/-- Modelled from the spec: `new_with_indent(sink, fill, width)` builds a
pretty-mode writer (§6). -/
def Writer.new_with_indent (c sz : Nat) : Writer :=
  { writer := { out := [], calls := 0 }, indent := some (Indentation.new c sz) }

/-- The events consumed by the writer (`Event` in `src/events/mod.rs`).
Each payload is the raw, pre-escaped byte content the writer treats as
opaque: for `Start` and `Empty` the name-plus-attributes bytes, for `End`
the name bytes, for `Decl` the already-serialized declaration body, etc. -/
inductive Event where
  | Start (e : Bytes)
  | End (e : Bytes)
  | Empty (e : Bytes)
  | Text (e : Bytes)
  | Comment (e : Bytes)
  | CData (e : Bytes)
  | Decl (e : Bytes)
  | PI (e : Bytes)
  | DocType (e : Bytes)
  | Eof
deriving Repr, DecidableEq

/-- A failure schedule: attempt `n` on the sink fails iff `fails n`. -/
abbrev Schedule := Nat → Bool

/-- The always-succeeding sink schedule. -/
def noFail : Schedule := fun _ => false

/-- One `write_all` attempt on the sink: on success the bytes are appended;
on failure nothing is appended and the attempt index is the error. -/
def write_all (fails : Schedule) (value : Bytes) (w : Writer) :
    Writer × Except Nat Unit :=
  if fails w.writer.calls then
    ({ w with writer := { w.writer with calls := w.writer.calls + 1 } },
      .error w.writer.calls)
  else
    ({ w with writer := { out := w.writer.out ++ value, calls := w.writer.calls + 1 } },
      .ok ())

/-- Sequencing with the `?` operator: on error, later steps are skipped and
the error is returned unchanged. -/
def wseq (r : Writer × Except Nat Unit) (k : Writer → Writer × Except Nat Unit) :
    Writer × Except Nat Unit :=
  match r with
  | (w, .ok _) => k w
  | (w, .error e) => (w, .error e)

/-- `Writer::write_async`: `self.writer.write_all(value).await.map_err(Into::into)`;
the error conversion is the identity in this model. -/
def write_async (fails : Schedule) (value : Bytes) (w : Writer) :
    Writer × Except Nat Unit :=
  write_all fails value w

/-- `Writer::write_wrapped_async(before, value, after)`: if a tracker is
present and its `should_line_break` flag is set, first write a newline and
the current indentation, then write `before`, `value`, `after` in order. -/
def write_wrapped_async (fails : Schedule) (before value after : Bytes)
    (w : Writer) : Writer × Except Nat Unit :=
  let lead : Writer × Except Nat Unit :=
    match w.indent with
    | some i =>
      if i.should_line_break then
        wseq (write_all fails [10] w) fun w1 => write_all fails i.current w1
      else (w, .ok ())
    | none => (w, .ok ())
  wseq lead fun w1 =>
  wseq (write_async fails before w1) fun w2 =>
  wseq (write_async fails value w2) fun w3 =>
  write_async fails after w3

/-- `Writer::write_indent_async`: write a newline and the current
indentation; a no-op without a tracker. -/
def write_indent_async (fails : Schedule) (w : Writer) : Writer × Except Nat Unit :=
  match w.indent with
  | some i => wseq (write_all fails [10] w) fun w1 => write_all fails i.current w1
  | none => (w, .ok ())

/-- Helper for `if let Some(i) = self.indent.as_mut() ⟨i.grow()⟩`. -/
def indentGrow (w : Writer) : Writer :=
  match w.indent with
  | some i => { w with indent := some i.grow }
  | none => w

/-- Helper for `if let Some(i) = self.indent.as_mut() ⟨i.shrink()⟩`. -/
def indentShrink (w : Writer) : Writer :=
  match w.indent with
  | some i => { w with indent := some i.shrink }
  | none => w

/-- Helper for `if let Some(i) = self.indent.as_mut()
⟨i.should_line_break = b⟩`. -/
def setLineBreakFlag (b : Bool) (w : Writer) : Writer :=
  match w.indent with
  | some i => { w with indent := some { i with should_line_break := b } }
  | none => w

/-- The value of the local `next_should_line_break` in `write_event_async`:
initialized `true`, set `false` in the `Text` and `CData` arms. -/
def next_line_flag : Event → Bool
  | .Text _ => false
  | .CData _ => false
  | _ => true

/-- Lines 42-45 of `write_event_async`: store the local
`next_should_line_break` into the tracker (when one is configured) and
return the arm's result.  The `?` operators in the `CData` arm return from
`write_event_async` directly and bypass this epilogue. -/
def eventEpilogue (b : Bool) (r : Writer × Except Nat Unit) :
    Writer × Except Nat Unit :=
  (setLineBreakFlag b r.1, r.2)

/-- `Writer::write_event_async`, transcribed arm by arm from
`src/writer/async_tokio.rs`.  Every arm computes a result value and falls
through to the trailing flag update (`eventEpilogue`, with the value the
local `next_should_line_break` has in that arm: `false` in the `Text` and
`CData` arms, `true` elsewhere) — except the first two writes of the
`CData` arm, whose `?` operators early-return from the function and skip
the update.  Byte literals: `[60] = b"<"`,
`[62] = b">"`, `[60,47] = b"</"`, `[47,62] = b"/>"`,
`[60,33,45,45] = b"<!--"`, `[45,45,62] = b"-->"`,
`[60,33,91,67,68,65,84,65,91] = b"<![CDATA["`, `[93,93,62] = b"]]>"`,
`[60,63] = b"<?"`, `[63,62] = b"?>"`,
`[60,33,68,79,67,84,89,80,69,32] = b"<!DOCTYPE "`. -/
def write_event_async (fails : Schedule) (ev : Event) (w : Writer) :
    Writer × Except Nat Unit :=
  match ev with
  | .Start e =>
    let p := write_wrapped_async fails [60] e [62] w
    eventEpilogue true (indentGrow p.1, p.2)
  | .End e => eventEpilogue true (write_wrapped_async fails [60, 47] e [62] (indentShrink w))
  | .Empty e => eventEpilogue true (write_wrapped_async fails [60] e [47, 62] w)
  | .Text e => eventEpilogue false (write_async fails e w)
  | .Comment e => eventEpilogue true (write_wrapped_async fails [60, 33, 45, 45] e [45, 45, 62] w)
  | .CData e =>
    wseq (write_async fails [60, 33, 91, 67, 68, 65, 84, 65, 91] w) fun w1 =>
    wseq (write_async fails e w1) fun w2 =>
    eventEpilogue false (write_async fails [93, 93, 62] w2)
  | .Decl e => eventEpilogue true (write_wrapped_async fails [60, 63] e [63, 62] w)
  | .PI e => eventEpilogue true (write_wrapped_async fails [60, 63] e [63, 62] w)
  | .DocType e =>
    eventEpilogue true (write_wrapped_async fails [60, 33, 68, 79, 67, 84, 89, 80, 69, 32] e [62] w)
  | .Eof => eventEpilogue true (w, .ok ())

/-- Folding `write_event_async` over a sequence of events (each call's
result is independent of previous calls' results, as in repeated caller
invocations that ignore errors; with `noFail` every call succeeds). -/
def write_events_async (fails : Schedule) (evs : List Event) (w : Writer) : Writer :=
  match evs with
  | [] => w
  | ev :: rest => write_events_async fails rest (write_event_async fails ev w).1

/-- The raw caller-supplied content bytes of an event (empty for `Eof`). -/
def eventContent : Event → Bytes
  | .Start e => e
  | .End e => e
  | .Empty e => e
  | .Text e => e
  | .Comment e => e
  | .CData e => e
  | .Decl e => e
  | .PI e => e
  | .DocType e => e
  | .Eof => []

/-- Modelled from the spec: the emitted-bytes column of the dispatch table
in §4.1 (delimiters around the raw content; nothing for `Eof`). -/
def eventPayload : Event → Bytes
  | .Start e => [60] ++ e ++ [62]
  | .End e => [60, 47] ++ e ++ [62]
  | .Empty e => [60] ++ e ++ [47, 62]
  | .Text e => e
  | .Comment e => [60, 33, 45, 45] ++ e ++ [45, 45, 62]
  | .CData e => [60, 33, 91, 67, 68, 65, 84, 65, 91] ++ e ++ [93, 93, 62]
  | .Decl e => [60, 63] ++ e ++ [63, 62]
  | .PI e => [60, 63] ++ e ++ [63, 62]
  | .DocType e => [60, 33, 68, 79, 67, 84, 89, 80, 69, 32] ++ e ++ [62]
  | .Eof => []

/-- Modelled from the spec: the indent-before column of the dispatch table
in §4.1 (`no` for `Text` and `CData`; nothing is written for `Eof`). -/
def indentBefore : Event → Bool
  | .Text _ => false
  | .CData _ => false
  | .Eof => false
  | _ => true

/-- Modelled from the spec: the blocking `Writer::write_event` of §4.1
(its source, `src/writer.rs`, is not part of the excerpt).  Given the
tracker state it returns the bytes written to the sink and the new tracker
state: an optional newline-plus-indent, then the dispatch-table payload;
depth shrinks before an `End` is written and grows after a `Start` is
written; the `should_line_break` flag is set on every call. -/
def write_event (ev : Event) (ind : Option Indentation) : Bytes × Option Indentation :=
  match ind with
  | none => (eventPayload ev, none)
  | some i =>
    let i1 := match ev with | .End _ => i.shrink | _ => i
    let lead := if indentBefore ev && i.should_line_break then 10 :: i1.current else []
    let i2 := match ev with | .Start _ => i1.grow | _ => i1
    (lead ++ eventPayload ev, some { i2 with should_line_break := next_line_flag ev })

/-- Modelled from the spec: the blocking writer fed a whole event sequence;
returns the concatenated output bytes and the final tracker state. -/
def write_events (evs : List Event) (ind : Option Indentation) : Bytes × Option Indentation :=
  match evs with
  | [] => ([], ind)
  | ev :: rest =>
    let p := write_event ev ind
    let q := write_events rest p.2
    (p.1 ++ q.1, q.2)

/-- The tracker-state part of `write_event`, as a standalone function. -/
def indentUpdate (ev : Event) : Option Indentation → Option Indentation
  | some i =>
    let i1 := match ev with | .End _ => i.shrink | _ => i
    let i2 := match ev with | .Start _ => i1.grow | _ => i1
    some { i2 with should_line_break := next_line_flag ev }
  | none => none

/-- The tracker transition of one event in pretty mode, standalone. -/
def specIndentStep (i : Indentation) (ev : Event) : Indentation :=
  let i1 := match ev with | .End _ => i.shrink | _ => i
  let i2 := match ev with | .Start _ => i1.grow | _ => i1
  { i2 with should_line_break := next_line_flag ev }

/-- The newline-plus-indent bytes `write_wrapped_async` emits before
`before` when the flag is set, and nothing otherwise. -/
def wrapLead : Option Indentation → Bytes
  | some i => if i.should_line_break then 10 :: i.current else []
  | none => []

/-- How many sink writes `write_wrapped_async` makes when none fails. -/
def wrapCalls : Option Indentation → Nat
  | some i => if i.should_line_break then 5 else 3
  | none => 3

/-- How many sink writes `write_event_async` makes when none fails. -/
def eventCalls (ev : Event) (ind : Option Indentation) : Nat :=
  match ev with
  | .Start _ => wrapCalls ind
  | .End _ => wrapCalls (Option.map Indentation.shrink ind)
  | .Empty _ => wrapCalls ind
  | .Text _ => 1
  | .Comment _ => wrapCalls ind
  | .CData _ => 3
  | .Decl _ => wrapCalls ind
  | .PI _ => wrapCalls ind
  | .DocType _ => wrapCalls ind
  | .Eof => 0

/-- Facts relating the result `r` of a sink-writing step run from state `w`
under schedule `fails`: the tracker is untouched, the output stream is only
extended (never rolled back), the attempt counter is monotone, and an error
is exactly a scheduled failure at attempt `e`, after which the step stopped
immediately (`e` was the last attempt). -/
def Good (fails : Schedule) (w : Writer) (r : Writer × Except Nat Unit) : Prop :=
  (r.1).indent = w.indent ∧
  (∃ t, (r.1).writer.out = w.writer.out ++ t) ∧
  w.writer.calls ≤ (r.1).writer.calls ∧
  ∀ e, r.2 = .error e →
    fails e = true ∧ w.writer.calls ≤ e ∧ (r.1).writer.calls = e + 1

/-- The writer-side part of `Good` (without the tracker clause, which the
flag-updating epilogue of `write_event_async` does not preserve): output
only extended, attempt counter monotone, and an error is a scheduled
failure at attempt `e`, after which the step stopped immediately. -/
def GoodW (fails : Schedule) (w : Writer) (r : Writer × Except Nat Unit) : Prop :=
  (∃ t, (r.1).writer.out = w.writer.out ++ t) ∧
  w.writer.calls ≤ (r.1).writer.calls ∧
  ∀ e, r.2 = .error e →
    fails e = true ∧ w.writer.calls ≤ e ∧ (r.1).writer.calls = e + 1

/-- Whether an event is a `Text` or a `CData` event. -/
def isTextOrCData : Event → Bool
  | .Text _ => true
  | .CData _ => true
  | _ => false

/-- Whether an event is a `CData` event. -/
def isCData : Event → Bool
  | .CData _ => true
  | _ => false

/-- Whether an event is a `Start` event. -/
def isStart : Event → Bool
  | .Start _ => true
  | _ => false

/-- Whether an event is an `End` event. -/
def isEnd : Event → Bool
  | .End _ => true
  | _ => false

/-- The depth transition of one event: grow on `Start`, shrink on `End`. -/
def depthStep (d : Nat) (ev : Event) : Nat :=
  match ev with
  | .Start _ => d + 1
  | .End _ => d - 1
  | _ => d

/-- The bytes the writer appends to its sink while processing event number
`k` (0-based) of `evs`, starting from writer state `w`, with no sink
failures. -/
def chunkAt (evs : List Event) (k : Nat) (w : Writer) : Bytes :=
  List.drop ((write_events_async noFail (evs.take k) w).writer.out).length
    ((write_events_async noFail (evs.take (k + 1)) w).writer.out)

/-- Claim C6 as stated: a compact-mode writer never emits a byte 10,
regardless of the event sequence. -/
def compact_no_newline_claim : Prop :=
  ∀ evs : List Event,
    (10 : Nat) ∉ (write_events_async noFail evs Writer.new).writer.out

/-- Claim C5 as stated: in pretty mode a line break is emitted before every
event except one immediately following a `Text` or `CData` event, and never
before the very first event. -/
def pretty_line_break_claim : Prop :=
  ∀ (evs : List Event) (c sz k : Nat), k < evs.length →
    ((chunkAt evs k (Writer.new_with_indent c sz)).head? = some 10 ↔
      0 < k ∧ isTextOrCData (evs.getD (k - 1) Event.Eof) = false)

/-- Claim C3 as stated: after every call, whether it returns Ok or Err,
the configured tracker's flag equals false for `Text`/`CData` and true for
every other variant. -/
def flag_postcondition_claim : Prop :=
  ∀ (fails : Schedule) (ev : Event) (w : Writer),
    Option.map Indentation.should_line_break ((write_event_async fails ev w).1).indent =
      Option.map (fun _ => next_line_flag ev) w.indent

@[simp]
lemma wseq_ok (w : Writer) (u : Unit) (k : Writer → Writer × Except Nat Unit) :
    wseq (w, .ok u) k = k w := rfl

@[simp]
lemma wseq_error (w : Writer) (e : Nat) (k : Writer → Writer × Except Nat Unit) :
    wseq (w, .error e) k = (w, .error e) := rfl

@[simp]
lemma write_all_noFail (v : Bytes) (w : Writer) :
    write_all noFail v w =
      ({ w with writer := { out := w.writer.out ++ v, calls := w.writer.calls + 1 } }, .ok ()) := by
  simp [write_all, noFail]

@[simp]
lemma indentGrow_writer (w : Writer) : (indentGrow w).writer = w.writer := by
  rcases w with ⟨s, ind⟩; cases ind <;> rfl

@[simp]
lemma indentShrink_writer (w : Writer) : (indentShrink w).writer = w.writer := by
  rcases w with ⟨s, ind⟩; cases ind <;> rfl

@[simp]
lemma setLineBreakFlag_writer (b : Bool) (w : Writer) :
    (setLineBreakFlag b w).writer = w.writer := by
  rcases w with ⟨s, ind⟩; cases ind <;> rfl

@[simp]
lemma indentGrow_indent (w : Writer) :
    (indentGrow w).indent = Option.map Indentation.grow w.indent := by
  rcases w with ⟨s, ind⟩; cases ind <;> rfl

@[simp]
lemma indentShrink_indent (w : Writer) :
    (indentShrink w).indent = Option.map Indentation.shrink w.indent := by
  rcases w with ⟨s, ind⟩; cases ind <;> rfl

@[simp]
lemma setLineBreakFlag_indent (b : Bool) (w : Writer) :
    (setLineBreakFlag b w).indent =
      Option.map (fun i => { i with should_line_break := b }) w.indent := by
  rcases w with ⟨s, ind⟩; cases ind <;> rfl

@[simp]
lemma eventEpilogue_writer (b : Bool) (r : Writer × Except Nat Unit) :
    ((eventEpilogue b r).1).writer = (r.1).writer := setLineBreakFlag_writer b r.1

@[simp]
lemma eventEpilogue_snd (b : Bool) (r : Writer × Except Nat Unit) :
    (eventEpilogue b r).2 = r.2 := rfl

@[simp]
lemma eventEpilogue_indent (b : Bool) (r : Writer × Except Nat Unit) :
    ((eventEpilogue b r).1).indent =
      Option.map (fun i => { i with should_line_break := b }) ((r.1).indent) :=
  setLineBreakFlag_indent b r.1

@[simp]
lemma Indentation.shrink_flag (i : Indentation) :
    i.shrink.should_line_break = i.should_line_break := rfl

@[simp]
lemma Indentation.grow_flag (i : Indentation) :
    i.grow.should_line_break = i.should_line_break := rfl

lemma write_wrapped_async_noFail (b v a : Bytes) (w : Writer) :
    write_wrapped_async noFail b v a w =
      ({ w with writer := { out := w.writer.out ++ wrapLead w.indent ++ b ++ v ++ a,
                            calls := w.writer.calls + wrapCalls w.indent } }, .ok ()) := by
  rcases w with ⟨⟨o, c⟩, ind⟩
  cases ind with
  | none => simp [write_wrapped_async, write_async, wrapLead, wrapCalls]
  | some i =>
    by_cases h : i.should_line_break <;>
      simp [write_wrapped_async, write_async, wrapLead, wrapCalls, h]

/-- With a never-failing sink, one `write_event_async` call appends exactly
the bytes of the spec-modelled `write_event`, updates the tracker the same
way, and returns `Ok`. -/
lemma write_event_async_noFail_eq (ev : Event) (w : Writer) :
    write_event_async noFail ev w =
      (⟨⟨w.writer.out ++ (write_event ev w.indent).1,
          w.writer.calls + eventCalls ev w.indent⟩,
        (write_event ev w.indent).2⟩, .ok ()) := by
  rcases w with ⟨⟨o, c⟩, ind⟩
  cases ev <;> cases ind <;>
    simp [write_event_async, eventEpilogue, write_event, write_async, eventPayload,
      eventCalls, wrapLead, wrapCalls, indentBefore, next_line_flag, indentGrow,
      indentShrink, setLineBreakFlag, write_wrapped_async_noFail]

lemma write_event_async_noFail_ok (ev : Event) (w : Writer) :
    (write_event_async noFail ev w).2 = .ok () := by
  rw [write_event_async_noFail_eq]

/-- Sequence version: with a never-failing sink the async writer appends
exactly the spec-modelled output and tracks the spec-modelled tracker. -/
lemma write_events_async_noFail_eq (evs : List Event) (w : Writer) :
    (write_events_async noFail evs w).writer.out
        = w.writer.out ++ (write_events evs w.indent).1 ∧
      (write_events_async noFail evs w).indent = (write_events evs w.indent).2 := by
  induction evs generalizing w with
  | nil => simp [write_events_async, write_events]
  | cons ev rest ih =>
    have h := write_event_async_noFail_eq ev w
    simp only [write_events_async, write_events, h]
    rcases ih ⟨⟨w.writer.out ++ (write_event ev w.indent).1,
      w.writer.calls + eventCalls ev w.indent⟩, (write_event ev w.indent).2⟩ with ⟨h1, h2⟩
    constructor
    · rw [h1]; simp [List.append_assoc]
    · exact h2

lemma good_id (fails : Schedule) (w : Writer) : Good fails w (w, .ok ()) :=
  ⟨rfl, ⟨[], by simp⟩, le_refl _, fun e h => by cases h⟩

lemma good_write_all (fails : Schedule) (v : Bytes) (w : Writer) :
    Good fails w (write_all fails v w) := by
  unfold write_all
  split
  · refine ⟨rfl, ⟨[], by simp⟩, Nat.le_succ _, fun e h => ?_⟩
    cases h
    exact ⟨by assumption, le_refl _, rfl⟩
  · exact ⟨rfl, ⟨v, rfl⟩, Nat.le_succ _, fun e h => by cases h⟩

lemma good_wseq (fails : Schedule) (w : Writer) (rm : Writer × Except Nat Unit)
    (k : Writer → Writer × Except Nat Unit)
    (hm : Good fails w rm) (hk : ∀ w1, Good fails w1 (k w1)) :
    Good fails w (wseq rm k) := by
  rcases rm with ⟨w1, x⟩
  cases x with
  | ok u =>
    rcases hm with ⟨hi, ⟨t, ht⟩, hc, -⟩
    dsimp at hi ht hc
    rcases hk w1 with ⟨hi1, ⟨t1, ht1⟩, hc1, he1⟩
    refine ⟨by simpa [wseq, hi1] using hi, ⟨t ++ t1, ?_⟩, le_trans hc hc1, ?_⟩
    · simp [wseq, ht1, ht]
    · intro e h
      rcases he1 e h with ⟨hf, hle, hcalls⟩
      exact ⟨hf, le_trans hc hle, hcalls⟩
  | error e0 =>
    rcases hm with ⟨hi, ho, hc, he⟩
    exact ⟨hi, ho, hc, fun e h => he e (by simpa [wseq] using h)⟩

lemma good_write_async (fails : Schedule) (v : Bytes) (w : Writer) :
    Good fails w (write_async fails v w) := good_write_all fails v w

lemma good_write_wrapped (fails : Schedule) (b v a : Bytes) (w : Writer) :
    Good fails w (write_wrapped_async fails b v a w) := by
  unfold write_wrapped_async
  apply good_wseq
  · rcases hw : w.indent with _ | i
    · exact good_id fails w
    · by_cases h : i.should_line_break
      · simpa [h] using
          good_wseq fails w _ _ (good_write_all fails [10] w)
            fun w1 => good_write_all fails i.current w1
      · simpa [h] using good_id fails w
  · intro w1
    exact good_wseq _ _ _ _ (good_write_async _ _ _) fun w2 =>
      good_wseq _ _ _ _ (good_write_async _ _ _) fun w3 => good_write_async _ _ _

lemma good_goodW (fails : Schedule) (w : Writer) (r : Writer × Except Nat Unit)
    (h : Good fails w r) : GoodW fails w r := ⟨h.2.1, h.2.2.1, h.2.2.2⟩

lemma goodW_wseq (fails : Schedule) (w : Writer) (rm : Writer × Except Nat Unit)
    (k : Writer → Writer × Except Nat Unit)
    (hm : GoodW fails w rm) (hk : ∀ w1, GoodW fails w1 (k w1)) :
    GoodW fails w (wseq rm k) := by
  rcases rm with ⟨w1, x⟩
  cases x with
  | ok u =>
    rcases hm with ⟨⟨t, ht⟩, hc, -⟩
    dsimp at ht hc
    rcases hk w1 with ⟨⟨t1, ht1⟩, hc1, he1⟩
    refine ⟨⟨t ++ t1, ?_⟩, le_trans hc hc1, ?_⟩
    · simp [wseq, ht1, ht]
    · intro e h
      rcases he1 e h with ⟨hf, hle, hcalls⟩
      exact ⟨hf, le_trans hc hle, hcalls⟩
  | error e0 =>
    rcases hm with ⟨ho, hc, he⟩
    exact ⟨ho, hc, fun e h => he e (by simpa [wseq] using h)⟩

lemma goodW_epilogue (fails : Schedule) (b : Bool) (w : Writer)
    (r : Writer × Except Nat Unit) (h : GoodW fails w r) :
    GoodW fails w (eventEpilogue b r) := by
  simpa only [GoodW, eventEpilogue_writer, eventEpilogue_snd] using h

/-- Writer-side facts about one `write_event_async` call under an arbitrary
failure schedule: the output is only extended, the attempt counter is
monotone, and an error is a scheduled sink failure after which no further
attempt was made.  This holds on the `CData` early-return paths too. -/
lemma write_event_async_writer_good (fails : Schedule) (ev : Event) (w : Writer) :
    (∃ t, ((write_event_async fails ev w).1).writer.out = w.writer.out ++ t) ∧
    w.writer.calls ≤ ((write_event_async fails ev w).1).writer.calls ∧
    ∀ e, (write_event_async fails ev w).2 = .error e →
      fails e = true ∧ w.writer.calls ≤ e ∧
        ((write_event_async fails ev w).1).writer.calls = e + 1 := by
  cases ev with
  | Start e =>
    rcases good_write_wrapped fails [60] e [62] w with ⟨-, ho, hc, he⟩
    simpa only [write_event_async, eventEpilogue_writer, eventEpilogue_snd, indentGrow_writer]
      using ⟨ho, hc, he⟩
  | End e =>
    rcases good_write_wrapped fails [60, 47] e [62] (indentShrink w) with ⟨-, ho, hc, he⟩
    simp only [indentShrink_writer] at ho hc he
    simpa only [write_event_async, eventEpilogue_writer, eventEpilogue_snd]
      using ⟨ho, hc, he⟩
  | Empty e =>
    rcases good_write_wrapped fails [60] e [47, 62] w with ⟨-, ho, hc, he⟩
    simpa only [write_event_async, eventEpilogue_writer, eventEpilogue_snd]
      using ⟨ho, hc, he⟩
  | Text e =>
    rcases good_write_async fails e w with ⟨-, ho, hc, he⟩
    simpa only [write_event_async, eventEpilogue_writer, eventEpilogue_snd]
      using ⟨ho, hc, he⟩
  | Comment e =>
    rcases good_write_wrapped fails [60, 33, 45, 45] e [45, 45, 62] w with ⟨-, ho, hc, he⟩
    simpa only [write_event_async, eventEpilogue_writer, eventEpilogue_snd]
      using ⟨ho, hc, he⟩
  | CData e =>
    exact goodW_wseq _ _ _ _ (good_goodW _ _ _ (good_write_async _ _ _)) fun w1 =>
      goodW_wseq _ _ _ _ (good_goodW _ _ _ (good_write_async _ _ _)) fun w2 =>
        goodW_epilogue _ _ _ _ (good_goodW _ _ _ (good_write_async _ _ _))
  | Decl e =>
    rcases good_write_wrapped fails [60, 63] e [63, 62] w with ⟨-, ho, hc, he⟩
    simpa only [write_event_async, eventEpilogue_writer, eventEpilogue_snd]
      using ⟨ho, hc, he⟩
  | PI e =>
    rcases good_write_wrapped fails [60, 63] e [63, 62] w with ⟨-, ho, hc, he⟩
    simpa only [write_event_async, eventEpilogue_writer, eventEpilogue_snd]
      using ⟨ho, hc, he⟩
  | DocType e =>
    rcases good_write_wrapped fails [60, 33, 68, 79, 67, 84, 89, 80, 69, 32] e [62] w
      with ⟨-, ho, hc, he⟩
    simpa only [write_event_async, eventEpilogue_writer, eventEpilogue_snd]
      using ⟨ho, hc, he⟩
  | Eof =>
    refine ⟨⟨[], by simp [write_event_async, eventEpilogue]⟩, ?_, ?_⟩
    · simp [write_event_async, eventEpilogue]
    · intro e h
      simp [write_event_async, eventEpilogue] at h

/-- For every variant except `CData` the tracker evolution of one
`write_event_async` call is independent of the failure schedule and of the
sink: shrink before an `End`, grow after a `Start`, and the trailing flag
update always runs. -/
lemma write_event_async_indent_not_cdata (fails : Schedule) (ev : Event) (w : Writer)
    (h : isCData ev = false) :
    ((write_event_async fails ev w).1).indent = indentUpdate ev w.indent := by
  cases ev with
  | CData e => simp [isCData] at h
  | Start e =>
    have hi := (good_write_wrapped fails [60] e [62] w).1
    simp only [write_event_async, eventEpilogue_indent, indentGrow_indent, hi, indentUpdate]
    cases w.indent <;> rfl
  | End e =>
    have hi := (good_write_wrapped fails [60, 47] e [62] (indentShrink w)).1
    simp only [write_event_async, eventEpilogue_indent, hi, indentShrink_indent, indentUpdate]
    cases w.indent <;> rfl
  | Empty e =>
    have hi := (good_write_wrapped fails [60] e [47, 62] w).1
    simp only [write_event_async, eventEpilogue_indent, hi, indentUpdate]
    cases w.indent <;> rfl
  | Text e =>
    have hi := (good_write_async fails e w).1
    simp only [write_event_async, eventEpilogue_indent, hi, indentUpdate]
    cases w.indent <;> rfl
  | Comment e =>
    have hi := (good_write_wrapped fails [60, 33, 45, 45] e [45, 45, 62] w).1
    simp only [write_event_async, eventEpilogue_indent, hi, indentUpdate]
    cases w.indent <;> rfl
  | Decl e =>
    have hi := (good_write_wrapped fails [60, 63] e [63, 62] w).1
    simp only [write_event_async, eventEpilogue_indent, hi, indentUpdate]
    cases w.indent <;> rfl
  | PI e =>
    have hi := (good_write_wrapped fails [60, 63] e [63, 62] w).1
    simp only [write_event_async, eventEpilogue_indent, hi, indentUpdate]
    cases w.indent <;> rfl
  | DocType e =>
    have hi := (good_write_wrapped fails [60, 33, 68, 79, 67, 84, 89, 80, 69, 32] e [62] w).1
    simp only [write_event_async, eventEpilogue_indent, hi, indentUpdate]
    cases w.indent <;> rfl
  | Eof =>
    simp only [write_event_async, eventEpilogue_indent, indentUpdate]
    cases w.indent <;> rfl

/-- The `CData` tracker evolution: the trailing flag update is skipped
exactly when one of the first two sink writes fails (the `?` early
returns); a call that reaches the final write — even a failing one — sets
the flag. -/
lemma write_event_async_indent_cdata (fails : Schedule) (e : Bytes) (w : Writer) :
    ((write_event_async fails (Event.CData e) w).1).indent =
      if fails w.writer.calls || fails (w.writer.calls + 1) then w.indent
      else indentUpdate (Event.CData e) w.indent := by
  cases h0 : fails w.writer.calls with
  | true => simp [write_event_async, write_async, write_all, wseq, h0]
  | false =>
    cases h1 : fails (w.writer.calls + 1) with
    | true => simp [write_event_async, write_async, write_all, wseq, h0, h1]
    | false =>
      cases h2 : fails (w.writer.calls + 1 + 1) <;>
        cases hw : w.indent <;>
          simp [write_event_async, write_async, write_all, wseq, h0, h1, h2,
            eventEpilogue, setLineBreakFlag, indentUpdate, next_line_flag, hw]

lemma next_line_flag_eq (ev : Event) : next_line_flag ev = !isTextOrCData ev := by
  cases ev <;> rfl

lemma specIndentStep_flag (i : Indentation) (ev : Event) :
    (specIndentStep i ev).should_line_break = next_line_flag ev := by
  cases ev <;> rfl

lemma specIndentStep_depth (i : Indentation) (ev : Event) :
    (specIndentStep i ev).depth = depthStep i.depth ev := by
  cases ev <;> rfl

lemma write_event_snd_some (ev : Event) (i : Indentation) :
    (write_event ev (some i)).2 = some (specIndentStep i ev) := rfl

lemma write_event_snd_none (ev : Event) : (write_event ev none).2 = none := rfl

lemma write_events_indent_some (evs : List Event) (i : Indentation) :
    (write_events evs (some i)).2 = some (evs.foldl specIndentStep i) := by
  induction evs generalizing i with
  | nil => rfl
  | cons ev rest ih =>
    simp only [write_events, write_event_snd_some, List.foldl_cons]
    exact ih (specIndentStep i ev)

lemma write_events_indent_none (evs : List Event) :
    (write_events evs none).2 = none := by
  induction evs with
  | nil => rfl
  | cons ev rest ih => simpa only [write_events, write_event_snd_none] using ih

lemma write_events_append (l1 l2 : List Event) (ind : Option Indentation) :
    write_events (l1 ++ l2) ind =
      ((write_events l1 ind).1 ++ (write_events l2 (write_events l1 ind).2).1,
        (write_events l2 (write_events l1 ind).2).2) := by
  induction l1 generalizing ind with
  | nil => simp [write_events]
  | cons ev rest ih =>
    simp only [List.cons_append, write_events, List.append_eq]
    rw [ih]
    simp [List.append_assoc]

/-- The appended bytes of event `k` are the spec-modelled output of that
event at the tracker state reached after the first `k` events. -/
lemma chunkAt_eq (evs : List Event) (k : Nat) (w : Writer) (hk : k < evs.length) :
    chunkAt evs k w =
      (write_event (evs.getD k Event.Eof) (write_events (evs.take k) w.indent).2).1 := by
  unfold chunkAt
  rw [(write_events_async_noFail_eq (evs.take k) w).1,
    (write_events_async_noFail_eq (evs.take (k + 1)) w).1]
  have htake : evs.take (k + 1) = evs.take k ++ [evs.getD k Event.Eof] := by
    rw [List.take_succ, List.getElem?_eq_getElem hk, List.getD_eq_getElem _ _ hk]
    rfl
  rw [htake, write_events_append]
  have : (write_events [evs.getD k Event.Eof] (write_events (evs.take k) w.indent).2).1
      = (write_event (evs.getD k Event.Eof) (write_events (evs.take k) w.indent).2).1 := by
    simp [write_events]
  rw [this, ← List.append_assoc]
  exact List.drop_left _ _

lemma mem_eventPayload_ten (ev : Event) (h : (10 : Nat) ∈ eventPayload ev) :
    (10 : Nat) ∈ eventContent ev := by
  cases ev <;> simp [eventPayload, eventContent] at h ⊢ <;> exact h

lemma eventPayload_head (ev : Event)
    (h : ∀ b, ev = Event.Text b → b.head? ≠ some 10) :
    (eventPayload ev).head? ≠ some 10 := by
  cases ev <;> simp [eventPayload]
  exact fun hb => by
    rename_i b
    exact absurd hb (h b rfl)

lemma write_events_compact_ten (evs : List Event)
    (h : ∀ ev ∈ evs, (10 : Nat) ∉ eventContent ev) :
    (10 : Nat) ∉ (write_events evs none).1 := by
  induction evs with
  | nil => simp [write_events]
  | cons ev rest ih =>
    simp only [write_events, write_event_snd_none, List.mem_append]
    rintro (hmem | hmem)
    · exact h ev (List.mem_cons_self ev rest)
        (mem_eventPayload_ten ev (by simpa [write_event] using hmem))
    · exact ih (fun e he => h e (List.mem_cons_of_mem _ he)) hmem

lemma depthStep_eq (d : Nat) (ev : Event) :
    depthStep d ev =
      d + (if isStart ev then 1 else 0) - (if isEnd ev then 1 else 0) := by
  cases ev <;> simp [depthStep, isStart, isEnd]

lemma foldl_depthStep_eq (evs : List Event) (d : Nat)
    (h : ∀ k, (evs.take k).countP isEnd ≤ d + (evs.take k).countP isStart) :
    evs.foldl depthStep d = d + evs.countP isStart - evs.countP isEnd := by
  induction evs generalizing d with
  | nil => simp
  | cons ev rest ih =>
    have hrest : ∀ k, (rest.take k).countP isEnd ≤
        depthStep d ev + (rest.take k).countP isStart := by
      intro k
      have hk := h (k + 1)
      rw [List.take_succ_cons, List.countP_cons, List.countP_cons] at hk
      rw [depthStep_eq]
      split_ifs at hk ⊢ <;> omega
    have h1 := h 1
    rw [List.take_succ_cons, List.take_zero, List.countP_cons, List.countP_cons] at h1
    simp only [List.countP_nil] at h1
    have hlen := hrest rest.length
    rw [List.take_length, depthStep_eq] at hlen
    rw [List.foldl_cons, ih (depthStep d ev) hrest, depthStep_eq,
      List.countP_cons, List.countP_cons]
    split_ifs at h1 hlen ⊢ <;> omega

lemma foldl_specIndentStep_flag (l : List Event) (i : Indentation) :
    (l.foldl specIndentStep i).should_line_break =
      match l.getLast? with
      | some a => next_line_flag a
      | none => i.should_line_break := by
  induction l using List.reverseRecOn with
  | nil => rfl
  | append_singleton l a ih =>
    rw [List.foldl_append, List.getLast?_concat]
    exact specIndentStep_flag _ a

lemma take_eq_concat (evs : List Event) (k : Nat) (h0 : 0 < k) (hk : k ≤ evs.length) :
    evs.take k = evs.take (k - 1) ++ [evs.getD (k - 1) Event.Eof] := by
  obtain ⟨k', rfl⟩ : ∃ k', k = k' + 1 := ⟨k - 1, (Nat.succ_pred_eq_of_pos h0).symm⟩
  have hlt : k' < evs.length := hk
  rw [List.take_succ, List.getElem?_eq_getElem hlt]
  simp only [Nat.add_sub_cancel]
  rw [List.getD_eq_getElem _ _ hlt]
  rfl

/-- The line-break flag after the first `k` events from a fresh pretty
writer: false for `k = 0`, otherwise set by event `k - 1`. -/
lemma flag_after_take (evs : List Event) (c sz k : Nat) (hk : k ≤ evs.length) :
    ((evs.take k).foldl specIndentStep (Indentation.new c sz)).should_line_break =
      (decide (0 < k) && !isTextOrCData (evs.getD (k - 1) Event.Eof)) := by
  cases Nat.eq_zero_or_pos k with
  | inl h0 => subst h0; simp [Indentation.new]
  | inr h0 =>
    rw [take_eq_concat evs k h0 hk, List.foldl_append, List.foldl_cons, List.foldl_nil,
      specIndentStep_flag, next_line_flag_eq]
    simp [h0]

lemma prefix_counts_of_all (l : List Event)
    (h : ∀ m, m ≤ l.length → (l.take m).countP isEnd ≤ (l.take m).countP isStart) :
    ∀ m, (l.take m).countP isEnd ≤ (l.take m).countP isStart := by
  intro m
  rcases le_or_lt m l.length with hm | hm
  · exact h m hm
  · rw [List.take_of_length_le (le_of_lt hm)]
    have h2 := h l.length (le_refl _)
    rwa [List.take_length] at h2

lemma write_event_fst_some (ev : Event) (i : Indentation) :
    (write_event ev (some i)).1 =
      (if indentBefore ev && i.should_line_break then
        10 :: (match ev with | Event.End _ => i.shrink | _ => i).current
       else []) ++ eventPayload ev := rfl

lemma foldl_specIndentStep_depth (l : List Event) (i : Indentation) :
    (l.foldl specIndentStep i).depth = l.foldl depthStep i.depth := by
  induction l generalizing i with
  | nil => rfl
  | cons ev rest ih => rw [List.foldl_cons, List.foldl_cons, ih, specIndentStep_depth]

/-- C1: one `write_event_async` call with a never-failing sink appends to
the sink exactly the dispatch-table bytes of the event — `Start` appends
`<`+bytes+`>`, `End` appends `</`+bytes+`>`, `Empty` appends `<`+bytes+`/>`,
`Text` its raw bytes, `Comment` `<!--`+bytes+`-->`, `CData`
`<![CDATA[`+bytes+`]]>`, `Decl` and `PI` `<?`+bytes+`?>`, `DocType`
`<!DOCTYPE `+bytes+`>`, `Eof` nothing — preceded by a newline and the
current indentation exactly when the variant is marked indent-before (all
but `Text`, `CData`, `Eof`) and the configured tracker's line-break flag is
set (for `End`, at the already-shrunk depth). -/
theorem write_event_async_dispatch (ev : Event) (w : Writer) :
    ((write_event_async noFail ev w).1).writer.out =
      w.writer.out ++
        (match w.indent with
         | some i =>
           if indentBefore ev && i.should_line_break then
             10 :: (match ev with | Event.End _ => i.shrink | _ => i).current
           else []
         | none => []) ++ eventPayload ev := by
  rw [write_event_async_noFail_eq]
  cases hw : w.indent with
  | none =>
    simp [write_event]
  | some i =>
    rw [List.append_assoc]
    simp only [write_event_fst_some]

/-- C2: the blocking writer (spec-modelled, since only the async module is
in the excerpt) and the cooperative `write_event_async` produce
byte-identical output for every event sequence and every indentation
configuration. -/
theorem blocking_async_byte_identical (evs : List Event) (ind : Option Indentation) :
    (write_events_async noFail evs
        { writer := { out := [], calls := 0 }, indent := ind }).writer.out =
      (write_events evs ind).1 := by
  simpa using
    (write_events_async_noFail_eq evs { writer := { out := [], calls := 0 }, indent := ind }).1

/-- C3 counterexample: the claimed Err-case postcondition fails for
`CData` — with a sink failing on the `<![CDATA[` write, the `?` operator
returns from `write_event_async` before the trailing flag update, so a
tracker flag that was true stays true instead of becoming false. -/
theorem flag_postcondition_counterexample : ¬ flag_postcondition_claim := by
  intro h
  have h2 := h (fun _ => true) (Event.CData [99])
    { writer := { out := [], calls := 0 },
      indent := some { should_line_break := true, indent_char := 32,
                       indent_size := 4, depth := 0 } }
  exact absurd h2 (by decide)

/-- C3 amended: the flag postcondition holds for every variant except
`CData` under every failure schedule and result (false after `Text`, true
otherwise including `Eof`); for `CData` it holds — the flag becomes false —
exactly when the first two sink writes succeed (in particular on every Ok
call), while a failure of the `<![CDATA[` or payload write early-returns
with the tracker untouched. -/
theorem line_break_flag_amended :
    (∀ (fails : Schedule) (ev : Event) (w : Writer), isCData ev = false →
      Option.map Indentation.should_line_break ((write_event_async fails ev w).1).indent =
        Option.map (fun _ => next_line_flag ev) w.indent) ∧
    (∀ (fails : Schedule) (e : Bytes) (w : Writer),
      (fails w.writer.calls || fails (w.writer.calls + 1)) = false →
      Option.map Indentation.should_line_break
          ((write_event_async fails (Event.CData e) w).1).indent =
        Option.map (fun _ => false) w.indent) ∧
    (∀ (fails : Schedule) (e : Bytes) (w : Writer),
      (fails w.writer.calls || fails (w.writer.calls + 1)) = true →
      ((write_event_async fails (Event.CData e) w).1).indent = w.indent) := by
  refine ⟨?_, ?_, ?_⟩
  · intro fails ev w h
    rw [write_event_async_indent_not_cdata fails ev w h]
    cases w.indent <;> rfl
  · intro fails e w h
    rw [write_event_async_indent_cdata fails e w, h]
    cases w.indent <;> rfl
  · intro fails e w h
    rw [write_event_async_indent_cdata fails e w, h]
    simp

/-- Witness for C3 amended: a `Text` event on an always-failing sink still
sets the flag to false; a `CData` on a healthy sink sets it to false; a
`CData` on an always-failing sink leaves the tracker untouched. -/
theorem line_break_flag_amended_witness :
    Option.map Indentation.should_line_break
        ((write_event_async (fun _ => true) (Event.Text [98])
          { writer := { out := [], calls := 0 },
            indent := some { should_line_break := true, indent_char := 32,
                             indent_size := 4, depth := 0 } }).1).indent = some false ∧
      Option.map Indentation.should_line_break
        ((write_event_async noFail (Event.CData [99])
          { writer := { out := [], calls := 0 },
            indent := some { should_line_break := true, indent_char := 32,
                             indent_size := 4, depth := 0 } }).1).indent = some false ∧
      ((write_event_async (fun _ => true) (Event.CData [99])
          { writer := { out := [], calls := 0 },
            indent := some { should_line_break := true, indent_char := 32,
                             indent_size := 4, depth := 0 } }).1).indent
        = some { should_line_break := true, indent_char := 32,
                 indent_size := 4, depth := 0 } :=
  ⟨line_break_flag_amended.1 (fun _ => true) (Event.Text [98])
      { writer := { out := [], calls := 0 },
        indent := some { should_line_break := true, indent_char := 32,
                         indent_size := 4, depth := 0 } } rfl,
    line_break_flag_amended.2.1 noFail [99]
      { writer := { out := [], calls := 0 },
        indent := some { should_line_break := true, indent_char := 32,
                         indent_size := 4, depth := 0 } } rfl,
    line_break_flag_amended.2.2 (fun _ => true) [99]
      { writer := { out := [], calls := 0 },
        indent := some { should_line_break := true, indent_char := 32,
                         indent_size := 4, depth := 0 } } rfl⟩

/-- C8: `write_wrapped_async` writes, before `before`, exactly one newline
byte followed by the indentation unit repeated depth times when a tracker
is present with its flag set, and nothing otherwise; then `before`, the
value and `after`, with no trailing separator. -/
theorem write_wrapped_lead_bytes (before value after : Bytes) (w : Writer) :
    ((write_wrapped_async noFail before value after w).1).writer.out =
      w.writer.out ++
        (match w.indent with
         | some i =>
           if i.should_line_break then
             10 :: List.replicate (i.depth * i.indent_size) i.indent_char
           else []
         | none => []) ++ before ++ value ++ after := by
  rw [write_wrapped_async_noFail]
  cases hw : w.indent with
  | none => simp [wrapLead]
  | some i =>
    by_cases h : i.should_line_break <;>
      simp [wrapLead, Indentation.current, h, List.append_assoc]

/-- C9: the emitted bytes are a deterministic pure function of the event
sequence and the indentation state: two writers with equal tracker state
fed the same events append identical byte streams to their sinks. -/
theorem emitted_bytes_deterministic (evs : List Event) (w1 w2 : Writer)
    (h : w1.indent = w2.indent) :
    List.drop w1.writer.out.length (write_events_async noFail evs w1).writer.out =
      List.drop w2.writer.out.length (write_events_async noFail evs w2).writer.out := by
  rw [(write_events_async_noFail_eq evs w1).1, (write_events_async_noFail_eq evs w2).1, h,
    List.drop_left, List.drop_left]

/-- Witness for C9: two compact writers over different sink contents append
the same bytes for the same event. -/
theorem emitted_bytes_deterministic_witness :
    List.drop (List.length ([1, 2] : Bytes))
        (write_events_async noFail [Event.Start [97]]
          { writer := { out := [1, 2], calls := 7 }, indent := none }).writer.out =
      List.drop (List.length ([] : Bytes))
        (write_events_async noFail [Event.Start [97]]
          { writer := { out := [], calls := 0 }, indent := none }).writer.out :=
  emitted_bytes_deterministic [Event.Start [97]]
    { writer := { out := [1, 2], calls := 7 }, indent := none }
    { writer := { out := [], calls := 0 }, indent := none } rfl

/-- C10: tracker depth mutations are not rolled back on sink failure: under
every failure schedule (including one that fails every write) a `Start`
leaves the depth incremented and an `End` leaves it decremented. -/
theorem depth_mutation_no_rollback (fails : Schedule) (b : Bytes) (w : Writer)
    (i : Indentation) (h : w.indent = some i) :
    Option.map Indentation.depth ((write_event_async fails (Event.Start b) w).1).indent
        = some (i.depth + 1) ∧
      Option.map Indentation.depth ((write_event_async fails (Event.End b) w).1).indent
        = some (i.depth - 1) := by
  rw [write_event_async_indent_not_cdata fails (Event.Start b) w rfl,
    write_event_async_indent_not_cdata fails (Event.End b) w rfl, h]
  exact ⟨rfl, rfl⟩

/-- Witness for C10: with an always-failing sink, depth 2 still becomes 3
after a failed `Start` and 1 after a failed `End`. -/
theorem depth_mutation_no_rollback_witness :
    Option.map Indentation.depth
        ((write_event_async (fun _ => true) (Event.Start [97])
          { writer := { out := [], calls := 0 },
            indent := some { should_line_break := true, indent_char := 32,
                             indent_size := 4, depth := 2 } }).1).indent = some 3 ∧
      Option.map Indentation.depth
        ((write_event_async (fun _ => true) (Event.End [97])
          { writer := { out := [], calls := 0 },
            indent := some { should_line_break := true, indent_char := 32,
                             indent_size := 4, depth := 2 } }).1).indent = some 1 :=
  depth_mutation_no_rollback (fun _ => true) [97]
    { writer := { out := [], calls := 0 },
      indent := some { should_line_break := true, indent_char := 32,
                       indent_size := 4, depth := 2 } }
    { should_line_break := true, indent_char := 32, indent_size := 4, depth := 2 } rfl

/-- C7: a sink failure during `write_event_async` is surfaced to the caller
unchanged and aborts the event at once: the failing attempt is a scheduled
sink failure, it is the last attempt made (no retry), bytes already written
for the event remain in the sink (no rollback), and the writer stays usable
— any subsequent event on a recovered sink returns Ok. -/
theorem sink_error_propagation (fails : Schedule) (ev : Event) (w : Writer) (e : Nat)
    (h : (write_event_async fails ev w).2 = .error e) :
    fails e = true ∧
      w.writer.calls ≤ e ∧
      ((write_event_async fails ev w).1).writer.calls = e + 1 ∧
      (∃ t, ((write_event_async fails ev w).1).writer.out = w.writer.out ++ t) ∧
      ∀ ev2, (write_event_async noFail ev2 (write_event_async fails ev w).1).2 = .ok () := by
  rcases write_event_async_writer_good fails ev w with ⟨ho, hc, he⟩
  rcases he e h with ⟨h1, h2, h3⟩
  exact ⟨h1, h2, h3, ho, fun ev2 => write_event_async_noFail_ok ev2 _⟩

/-- Witness for C7: a `Start` whose name write fails after `<` was written
returns the sink error for attempt 1, stops there, keeps `<` in the sink,
and leaves the writer usable. -/
theorem sink_error_propagation_witness :
    (write_event_async (fun n => n == 1) (Event.Start [97]) Writer.new).2
        = Except.error 1 ∧
      ((fun n : Nat => n == 1) 1 = true ∧
        Writer.new.writer.calls ≤ 1 ∧
        ((write_event_async (fun n => n == 1) (Event.Start [97]) Writer.new).1).writer.calls
          = 1 + 1 ∧
        (∃ t, ((write_event_async (fun n => n == 1) (Event.Start [97]) Writer.new).1).writer.out
          = Writer.new.writer.out ++ t) ∧
        ∀ ev2, (write_event_async noFail ev2
          (write_event_async (fun n => n == 1) (Event.Start [97]) Writer.new).1).2 = .ok ()) :=
  ⟨rfl, sink_error_propagation (fun n => n == 1) (Event.Start [97]) Writer.new 1 rfl⟩

/-- C6 counterexample: the claim that a compact-mode writer never emits a
newline byte fails as stated — a `Text` event whose raw payload contains
byte 10 is written verbatim, so the stream contains a newline. -/
theorem compact_newline_counterexample : ¬ compact_no_newline_claim := by
  intro h
  exact h [Event.Text [10]] (by decide)

/-- C6 amended: the compact-mode writer itself never inserts a newline —
whenever no event's raw payload bytes contain byte 10, the bytes the writer
appends to its sink contain no byte 10 either, for every event sequence. -/
theorem compact_mode_no_inserted_newline (evs : List Event) (w : Writer)
    (hw : w.indent = none)
    (hc : ∀ ev ∈ evs, (10 : Nat) ∉ eventContent ev) :
    (10 : Nat) ∉
      List.drop w.writer.out.length (write_events_async noFail evs w).writer.out := by
  rw [(write_events_async_noFail_eq evs w).1, hw, List.drop_left]
  exact write_events_compact_ten evs hc

/-- Witness for C6 amended at a concrete compact run. -/
theorem compact_mode_no_inserted_newline_witness :
    (10 : Nat) ∉
      List.drop (List.length ([] : Bytes))
        (write_events_async noFail
          [Event.Start [97], Event.Text [98], Event.End [97]] Writer.new).writer.out :=
  compact_mode_no_inserted_newline [Event.Start [97], Event.Text [98], Event.End [97]]
    Writer.new rfl (by decide)

/-- C5 counterexample: the claim that in pretty mode a line break precedes
every event not following a `Text`/`CData` fails as stated — a `Text`
event directly after a `Start` gets no line break (its chunk is its raw
bytes), although `Start` is neither `Text` nor `CData`. -/
theorem pretty_line_break_counterexample : ¬ pretty_line_break_claim := by
  intro h
  have h2 := (h [Event.Start [97], Event.Text [98]] 32 4 1 (by decide)).mpr (by decide)
  exact absurd h2 (by decide)

/-- C5 amended: from a fresh pretty writer, the bytes appended for event
`k` are exactly its dispatch-table payload, preceded by one newline byte
plus the current indentation precisely when the event is one of the
indent-before variants (`Start`, `End`, `Empty`, `Comment`, `Decl`, `PI`,
`DocType`), it is not the very first event, and the previous event was
neither `Text` nor `CData`; `Text`, `CData` and `Eof` are never preceded
by a line break. -/
theorem pretty_line_break_amended (evs : List Event) (c sz k : Nat)
    (hk : k < evs.length) :
    chunkAt evs k (Writer.new_with_indent c sz) =
      (if indentBefore (evs.getD k Event.Eof) &&
          (decide (0 < k) && !isTextOrCData (evs.getD (k - 1) Event.Eof)) then
        10 ::
          (match evs.getD k Event.Eof with
           | Event.End _ =>
             ((evs.take k).foldl specIndentStep (Indentation.new c sz)).shrink
           | _ => (evs.take k).foldl specIndentStep (Indentation.new c sz)).current
       else []) ++ eventPayload (evs.getD k Event.Eof) := by
  rw [chunkAt_eq evs k _ hk]
  have hind : (Writer.new_with_indent c sz).indent = some (Indentation.new c sz) := rfl
  rw [hind, write_events_indent_some, write_event_fst_some,
    flag_after_take evs c sz k (le_of_lt hk)]

/-- Witness for C5 amended on a nested pretty sequence, at the inner
`Empty` event. -/
theorem pretty_line_break_amended_witness :
    chunkAt [Event.Start [97], Event.Start [98], Event.Empty [99], Event.End [98],
        Event.End [97]] 2 (Writer.new_with_indent 32 4) =
      (if indentBefore
            ([Event.Start [97], Event.Start [98], Event.Empty [99], Event.End [98],
              Event.End [97]].getD 2 Event.Eof) &&
          (decide (0 < 2) &&
            !isTextOrCData
              ([Event.Start [97], Event.Start [98], Event.Empty [99], Event.End [98],
                Event.End [97]].getD (2 - 1) Event.Eof)) then
        10 ::
          (match
            [Event.Start [97], Event.Start [98], Event.Empty [99], Event.End [98],
              Event.End [97]].getD 2 Event.Eof with
           | Event.End _ =>
             (([Event.Start [97], Event.Start [98], Event.Empty [99], Event.End [98],
                Event.End [97]].take 2).foldl specIndentStep (Indentation.new 32 4)).shrink
           | _ =>
             ([Event.Start [97], Event.Start [98], Event.Empty [99], Event.End [98],
                Event.End [97]].take 2).foldl specIndentStep
                (Indentation.new 32 4)).current
       else []) ++
        eventPayload
          ([Event.Start [97], Event.Start [98], Event.Empty [99], Event.End [98],
            Event.End [97]].getD 2 Event.Eof) :=
  pretty_line_break_amended
    [Event.Start [97], Event.Start [98], Event.Empty [99], Event.End [98], Event.End [97]]
    32 4 2 (by decide)

/-- C4: the tracker's depth is incremented by exactly one on `Start` and
decremented by exactly one on `End` (under every failure schedule), no
other variant changes it, and over any well-nested event sequence the
depth after every prefix equals that prefix's `Start` count minus its
`End` count — in particular it never goes below zero. -/
theorem depth_tracking :
    (∀ (fails : Schedule) (b : Bytes) (w : Writer) (i : Indentation),
      w.indent = some i →
      Option.map Indentation.depth ((write_event_async fails (Event.Start b) w).1).indent
        = some (i.depth + 1)) ∧
    (∀ (fails : Schedule) (b : Bytes) (w : Writer) (i : Indentation),
      w.indent = some i → 0 < i.depth →
      Option.map Indentation.depth ((write_event_async fails (Event.End b) w).1).indent
        = some (i.depth - 1)) ∧
    (∀ (fails : Schedule) (ev : Event) (w : Writer),
      isStart ev = false → isEnd ev = false →
      Option.map Indentation.depth ((write_event_async fails ev w).1).indent
        = Option.map Indentation.depth w.indent) ∧
    (∀ (evs : List Event) (c sz : Nat),
      (∀ m, (evs.take m).countP isEnd ≤ (evs.take m).countP isStart) →
      ∀ k, k ≤ evs.length →
      Option.map Indentation.depth
          (write_events_async noFail (evs.take k) (Writer.new_with_indent c sz)).indent
        = some ((evs.take k).countP isStart - (evs.take k).countP isEnd)) := by
  refine ⟨?_, ?_, ?_, ?_⟩
  · intro fails b w i h
    rw [write_event_async_indent_not_cdata fails (Event.Start b) w rfl, h]
    rfl
  · intro fails b w i h _hd
    rw [write_event_async_indent_not_cdata fails (Event.End b) w rfl, h]
    rfl
  · intro fails ev w hS hE
    cases ev with
    | Start e => simp [isStart] at hS
    | End e => simp [isEnd] at hE
    | CData e =>
      rw [write_event_async_indent_cdata]
      split
      · rfl
      · cases w.indent <;> rfl
    | Empty e =>
      rw [write_event_async_indent_not_cdata fails (Event.Empty e) w rfl]
      cases w.indent <;> rfl
    | Text e =>
      rw [write_event_async_indent_not_cdata fails (Event.Text e) w rfl]
      cases w.indent <;> rfl
    | Comment e =>
      rw [write_event_async_indent_not_cdata fails (Event.Comment e) w rfl]
      cases w.indent <;> rfl
    | Decl e =>
      rw [write_event_async_indent_not_cdata fails (Event.Decl e) w rfl]
      cases w.indent <;> rfl
    | PI e =>
      rw [write_event_async_indent_not_cdata fails (Event.PI e) w rfl]
      cases w.indent <;> rfl
    | DocType e =>
      rw [write_event_async_indent_not_cdata fails (Event.DocType e) w rfl]
      cases w.indent <;> rfl
    | Eof =>
      rw [write_event_async_indent_not_cdata fails Event.Eof w rfl]
      cases w.indent <;> rfl
  · intro evs c sz hwn k hk
    rw [(write_events_async_noFail_eq (evs.take k) (Writer.new_with_indent c sz)).2]
    have hind : (Writer.new_with_indent c sz).indent = some (Indentation.new c sz) := rfl
    rw [hind, write_events_indent_some]
    have hd : ((evs.take k).foldl specIndentStep (Indentation.new c sz)).depth
        = (evs.take k).foldl depthStep 0 :=
      foldl_specIndentStep_depth (evs.take k) (Indentation.new c sz)
    have hpre : ∀ m, ((evs.take k).take m).countP isEnd ≤
        0 + ((evs.take k).take m).countP isStart := by
      intro m
      rw [List.take_take]
      simpa using hwn (min m k)
    have heq := foldl_depthStep_eq (evs.take k) 0 hpre
    rw [Nat.zero_add] at heq
    exact congrArg some (hd.trans heq)

/-- Witness for C4 on concrete inputs: a failed `Start` at depth 2, a
failed `End` at depth 2, a `Comment` leaving depth unchanged, and a
well-nested sequence whose prefix depths equal Starts minus Ends. -/
theorem depth_tracking_witness :
    Option.map Indentation.depth
        ((write_event_async (fun _ => true) (Event.Start [97])
          { writer := { out := [], calls := 0 },
            indent := some { should_line_break := true, indent_char := 32,
                             indent_size := 4, depth := 2 } }).1).indent = some 3 ∧
      Option.map Indentation.depth
        ((write_event_async (fun _ => true) (Event.End [97])
          { writer := { out := [], calls := 0 },
            indent := some { should_line_break := true, indent_char := 32,
                             indent_size := 4, depth := 2 } }).1).indent = some 1 ∧
      Option.map Indentation.depth
        ((write_event_async noFail (Event.Comment [99])
          { writer := { out := [], calls := 0 },
            indent := some { should_line_break := true, indent_char := 32,
                             indent_size := 4, depth := 2 } }).1).indent
        = Option.map Indentation.depth
          ({ writer := { out := [], calls := 0 },
             indent := some { should_line_break := true, indent_char := 32,
                              indent_size := 4, depth := 2 } } : Writer).indent ∧
      Option.map Indentation.depth
          (write_events_async noFail
            ([Event.Start [97], Event.Start [98], Event.End [98], Event.End [97]].take 3)
            (Writer.new_with_indent 32 4)).indent
        = some
          ((([Event.Start [97], Event.Start [98], Event.End [98],
              Event.End [97]].take 3).countP isStart) -
            (([Event.Start [97], Event.Start [98], Event.End [98],
              Event.End [97]].take 3).countP isEnd)) :=
  ⟨depth_tracking.1 (fun _ => true) [97] _ _ rfl,
    depth_tracking.2.1 (fun _ => true) [97] _
      { should_line_break := true, indent_char := 32, indent_size := 4, depth := 2 }
      rfl (by decide),
    depth_tracking.2.2.1 noFail (Event.Comment [99]) _ rfl rfl,
    depth_tracking.2.2.2
      [Event.Start [97], Event.Start [98], Event.End [98], Event.End [97]] 32 4
      (prefix_counts_of_all _ (by decide)) 3 (by decide)⟩

/-- Round-trip literal case from the repository tests: `Empty` with name
`tag` gives `<tag/>`. -/
lemma sample_empty_tag :
    (write_events_async noFail [Event.Empty [116, 97, 103]] Writer.new).writer.out
      = [60, 116, 97, 103, 47, 62] := by decide

/-- Round-trip literal case from the repository tests: compact
`Start tag, Text inner text, End tag` gives `<tag>inner text</tag>`. -/
lemma sample_full_tag :
    (write_events_async noFail
        [Event.Start [116, 97, 103],
          Event.Text [105, 110, 110, 101, 114, 32, 116, 101, 120, 116],
          Event.End [116, 97, 103]] Writer.new).writer.out
      = [60, 116, 97, 103, 62,
          105, 110, 110, 101, 114, 32, 116, 101, 120, 116,
          60, 47, 116, 97, 103, 62] := by decide

/-- Round-trip literal case from the repository tests: a paired element
with four-space indentation puts the closing tag on a new line. -/
lemma sample_empty_paired :
    (write_events_async noFail [Event.Start [112], Event.End [112]]
        (Writer.new_with_indent 32 4)).writer.out
      = [60, 112, 62, 10, 60, 47, 112, 62] := by decide

/-- Round-trip literal case from the repository tests: nested pairs with
four-space indentation indent the inner empty element by one level and
mirror the nesting on the closes. -/
lemma sample_nested :
    (write_events_async noFail
        [Event.Start [112], Event.Start [112], Event.Empty [105],
          Event.End [112], Event.End [112]]
        (Writer.new_with_indent 32 4)).writer.out
      = [60, 112, 62,
          10, 32, 32, 32, 32, 60, 112, 62,
          10, 32, 32, 32, 32, 32, 32, 32, 32, 60, 105, 47, 62,
          10, 32, 32, 32, 32, 60, 47, 112, 62,
          10, 60, 47, 112, 62] := by decide

/-- Mixed-content case from the repository tests: text collapses the break
before the following element but not the one before the close. -/
lemma sample_mixed_content :
    (write_events_async noFail
        [Event.Start [112], Event.Text [116], Event.Empty [105], Event.End [112]]
        (Writer.new_with_indent 32 4)).writer.out
      = [60, 112, 62, 116, 60, 105, 47, 62, 10, 60, 47, 112, 62] := by decide

end QuickXml
